import Mathlib

/-!
Shallow embedding of the move-search core of the Agent-Smith chess engine and
theorems checking the specification claims against it.

Embedded source files:
* `src/MoveSearch/MoveSearch.cpp` — `AlphaBeta`, `MoveRating`, `Searcher`
  (`tryShortCircuit`, `bestChildPosition`, `wouldMakeRepetition`,
  `getVotingWeight`, iterative deepening), `AsyncSearchState::assignDepths`,
  `voteForBestMove`, `findBestMoveImpl`.
* the `Chess.SafeInt` / `Chess.UCI:SearchThread` translation unit —
  `SafeUnsigned::subToMin`, `SearchThread::run`/`think` (ponder depth 255).
* the `Chess.MoveSearch:MovePriority` partition — `MovePriority::trim`.

Parts of the repository that the search consumes but whose sources are not in
the repository snapshot (the `Position` / move-generation modules, the `Node`
partition, the `PositionTable` partition, the `Rating` module) are modelled
from the spec; each such definition carries a doc comment saying so.

Machine integers: the engine's `SafeUnsigned<uint8_t>` values (depths, levels,
indices) are modelled as `Nat`; every `SafeUnsigned` operation asserts (and
aborts) on wrap-around, so on every run that does not abort the values behave
exactly like unbounded naturals, and theorems that need an assertion's
precondition carry it as a hypothesis.  The engine's `Rating` is a
floating-point scalar; it is modelled as `ℚ` (exact arithmetic), which keeps
every comparison and every algebraic step of the voting and windowing logic,
and the claims settled here do not depend on rounding.
-/

namespace Chess

/-- Ratings.  Modelled from the spec: `Rating` is a signed scalar score type
(`§3`); the source's floating-point scalar is embedded as `ℚ`. -/
abbrev Rating := ℚ

/-- Modelled from the spec: `worst<Maximizing>` is an `±∞`-like extreme
(`§3 Rating`); the `Chess.Rating` module is not in the repository snapshot. -/
def worstPossibleRating (maximizing : Bool) : Rating :=
  if maximizing then -(10 ^ 9) else 10 ^ 9

/-- Modelled from the spec: `checkmated<Maximizing>` terminal value
(`§3 Rating`), strictly inside the `worst` extremes. -/
def checkmatedRating (maximizing : Bool) : Rating :=
  if maximizing then -(10 ^ 6) else 10 ^ 6

/-- `Searcher::MAX_DEPTH` (MoveSearch.cpp line 72): the dimension of the
per-level killer-move table. -/
def MAX_DEPTH : Nat := 30

/-- `Searcher::MAX_KILLER_MOVES` (MoveSearch.cpp line 73). -/
def MAX_KILLER_MOVES : Nat := 3

/-- `Searcher::RANDOMIZATION_CUTOFF` (MoveSearch.cpp line 67). -/
def RANDOMIZATION_CUTOFF : Nat := 3

/-- The depth `255_su8` at which `SearchThread::think` runs its ponder search
(`m_searcher.findBestMove(stateCopy.pos, 255_su8, stateCopy.repetitionMap)`). -/
def PONDER_DEPTH : Nat := 255

/-- Moves.  Modelled from the spec: a `Move` is an opaque immutable record with
a distinguished null value (`§3`); of its fields the search core inspects only
identity (equality) and whether the move captures (`capturedPiece == None`
guards killer-move insertion), so the embedding keeps an identifier and the
capture flag. -/
structure Move where
  id : Nat
  isCapture : Bool := false
deriving DecidableEq, Repr

/-- `Move::null()`. -/
def Move.null : Move := ⟨0, false⟩

/-- Positions are identified by their fingerprint.  Modelled from the spec:
a `Fingerprint` uniquely identifies a position with side-to-move (`§3`). -/
abbrev Pos := Nat

/-- Modelled from the spec: `RepetitionMap` is a multiset from position to
occurrence count (`§3`); embedded as its count function. -/
abbrev RepMap := Pos → Nat

/- ----------------------------------------------------------------
`SafeUnsigned::subToMin` and `MovePriority::trim`
---------------------------------------------------------------- -/

/-- `SafeUnsigned::subToMin(subbed, min)` (SafeInt translation unit lines
90-99): subtract `subbed` but clamp at `min`; the entry assertion
`zAssert(min <= *this)` always holds at the one call site (`min = 0`). -/
def subToMin (value subbed low : Nat) : Nat :=
  if value < subbed then low
  else if value - subbed < low then low else value - subbed

/-- `MovePriority` (MovePriority partition lines 150-209): a ranked candidate
move with a static exchange rating, an LMR-recommended depth and a trimmed
flag. -/
structure MovePriority where
  move : Move
  exchangeRating : Rating := 0
  recommendedDepth : Nat := 0
  trimmed : Bool := false
deriving DecidableEq, Repr

/-- `MovePriority::trim(moveIndex)` (MovePriority partition lines 179-191).
The reduction amount
`uint8(0.99 + LOG_TABLE[recommendedDepth+1] * LOG_TABLE[moveIndex+1] / 3.14)`
is computed in double precision from the move index; floating point is not
shallowly embeddable, so the already-cast amount is taken here as the
parameter `reducedDepth`, universally quantified in every theorem about
`trim` — the claims about `trim` hold for every value it could take.  The
rest is literal: `subbed = recommendedDepth + 1` clamped-subtracted by the
reduction down to `0`, and the new recommended depth is
`min recommendedDepth subbed`. -/
def MovePriority.trim (reducedDepth : Nat) (mp : MovePriority) : MovePriority :=
  let subbed := subToMin (mp.recommendedDepth + 1) reducedDepth 0
  { mp with trimmed := true, recommendedDepth := Nat.min mp.recommendedDepth subbed }

/- ----------------------------------------------------------------
Searchers and `AsyncSearchState::assignDepths`
---------------------------------------------------------------- -/

/-- The per-worker data that the coordinator reads: the helper flag and the
assigned depth (`Searcher::m_helper`, `Searcher::depth`). -/
structure Searcher where
  helper : Bool
  depth : Nat := 0
deriving DecidableEq, Repr

/-- The body of `AsyncSearchState::assignDepths` (MoveSearch.cpp lines
309-321), with `i` the `std::views::enumerate` index: the main worker gets
`maxDepth`; a helper at index `i` gets `maxDepth` unchanged when
`maxDepth == 1`, and otherwise `maxDepth - d` where `d = 1` iff `i` is even. -/
def assignDepthsFrom (maxDepth : Nat) : Nat → List Searcher → List Searcher
  | _, [] => []
  | i, s :: rest =>
    (if s.helper = false then { s with depth := maxDepth }
     else
       let d := if i % 2 = 0 then 1 else 0
       { s with depth := if maxDepth = 1 then maxDepth else maxDepth - d }) ::
      assignDepthsFrom maxDepth (i + 1) rest

/-- `AsyncSearchState::assignDepths(maxDepth)`: enumerate from index `0`.
The entry assertion is `zAssert(maxDepth >= 1)`. -/
def assignDepths (maxDepth : Nat) (searchers : List Searcher) : List Searcher :=
  assignDepthsFrom maxDepth 0 searchers

/-- The depth claim C6 assigns to the worker at enumerate index `i`
(spec `§4.3`): main workers get `max_depth`; a helper gets `max_depth` when
`max_depth = 1`, else `max_depth` for odd `i` and `max_depth - 1` for even
`i`.  Written from the claim's words, to be compared with `assignDepths`. -/
def claimedDepth (maxDepth : Nat) (helperFlag : Bool) (i : Nat) : Nat :=
  if helperFlag = false then maxDepth
  else if maxDepth = 1 then maxDepth
  else if i % 2 = 1 then maxDepth
  else maxDepth - 1

/- ----------------------------------------------------------------
Search data structures
---------------------------------------------------------------- -/

/-- Transposition-table bound kinds (`InWindow`, `LowerBound`, `UpperBound`). -/
inductive Bound
  | InWindow
  | LowerBound
  | UpperBound
deriving DecidableEq, Repr

/-- Modelled from the spec: `PositionEntry` (TT row, `§3`): `best_move`,
`rating`, `depth` (remaining depth the result was searched to) and `bound`;
the `PositionTable` partition is not in the repository snapshot. -/
structure PositionEntry where
  bestMove : Move
  rating : Rating
  depth : Nat
  bound : Bound
deriving DecidableEq, Repr

/-- `MoveRating` (MoveSearch.cpp lines 58-63). -/
structure MoveRating where
  move : Move := Move.null
  rating : Rating := 0
  invalidTTEntry : Bool := false
  checkmateLevel : Option Nat := none
deriving DecidableEq, Repr

/-- `AlphaBeta` (MoveSearch.cpp lines 25-56); default-constructed with the
worst ratings for each side. -/
structure AlphaBeta where
  alpha : Rating := worstPossibleRating true
  beta : Rating := worstPossibleRating false
deriving DecidableEq, Repr

/-- `AlphaBeta::updateAlpha`. -/
def AlphaBeta.updateAlpha (ab : AlphaBeta) (childRating : Rating) : AlphaBeta :=
  { ab with alpha := max childRating ab.alpha }

/-- `AlphaBeta::updateBeta`. -/
def AlphaBeta.updateBeta (ab : AlphaBeta) (childRating : Rating) : AlphaBeta :=
  { ab with beta := min childRating ab.beta }

/-- `AlphaBeta::update<Maximizing>`. -/
def AlphaBeta.update (maximizing : Bool) (ab : AlphaBeta) (childRating : Rating) : AlphaBeta :=
  if maximizing then ab.updateAlpha childRating else ab.updateBeta childRating

/-- `AlphaBeta::canPrune()`: `beta <= alpha`. -/
def AlphaBeta.canPrune (ab : AlphaBeta) : Bool :=
  decide (ab.beta ≤ ab.alpha)

/-- `Searcher::KillerMoveEntries` (MoveSearch.cpp lines 74-77): a ring buffer
of `MAX_KILLER_MOVES` moves, null-initialised, with its write index. -/
structure KillerMoveEntries where
  killerMoves : List Move := [Move.null, Move.null, Move.null]
  index : Nat := 0
deriving DecidableEq, Repr

/-- Inserting a killer move (MoveSearch.cpp lines 222-224): write at the ring
index, then advance the index modulo `MAX_KILLER_MOVES`. -/
def KillerMoveEntries.add (k : KillerMoveEntries) (m : Move) : KillerMoveEntries :=
  { killerMoves := k.killerMoves.set k.index m
    index := if k.index + 1 = MAX_KILLER_MOVES then 0 else k.index + 1 }

/-- The mutable search context threaded through the recursion: the shared
transposition table (an upsert log, newest entry first), the killer-move
table (`m_killerMoves`, indexed by level), and `killerLevels`, a ghost
observation recording every level at which `bestChildPosition` indexed the
killer-move table — in the C++ source that index is into a `std::array` of
dimension `MAX_DEPTH = 30`, so any recorded level `≥ 30` is an out-of-bounds
access. -/
structure SearchState where
  tt : List (Pos × PositionEntry) := []
  killers : Nat → KillerMoveEntries := fun _ => {}
  killerLevels : List Nat := []

/-- Modelled from the spec: TT `get` (`§4.1`, `§4.2.2` step 4) returns the
stored entry for the position's fingerprint regardless of its depth (the
caller re-checks `entry.depth ≥ remaining_depth` itself, and a shallower
entry is still used as the PV-move hint). -/
def getPositionEntry (st : SearchState) (p : Pos) : Option PositionEntry :=
  (st.tt.find? (fun e => decide (e.1 = p))).map (fun e => e.2)

/-- Modelled from the spec: TT `store` (`§4.1`) upserts the entry; the
always-replace collision policy is embedded by prepending, so a later store
for the same fingerprint shadows earlier ones. -/
def storePositionEntry (st : SearchState) (p : Pos) (e : PositionEntry) : SearchState :=
  { st with tt := (p, e) :: st.tt }

/-- The external collaborators the search consumes, plus the two per-call
atomics.  Modelled from the spec (`§6`): position/movegen (`legal_moves`,
`apply(move)`, `is_checkmate` via check status, side-to-move), static
evaluation (`node.getRating()`), the move-ordering pass, the helper shuffle
outcome (the PRNG draw), and how a child `Node` updates its repetition-map
view (the `Node` partition is not in the repository snapshot; the spec leaves
the view's maintenance to it, so the embedding is parameterised over it).
`stopRequested` is the value the worker's loads of the shared atomic observe
during the call. -/
structure Env where
  childPos : Pos → Move → Pos
  legalMoves : Pos → List Move
  inCheck : Pos → Bool
  staticRating : Pos → Rating
  isWhite : Pos → Bool
  order : Pos → Nat → Move → List Move → List MovePriority
  shuffle : Nat → List MovePriority → List MovePriority
  childRep : RepMap → Pos → RepMap
  stopRequested : Bool

/-- Modelled from the spec: `Position::isCheckmate` holds when the
side-to-move has no legal move and is in check (`§3 Position`). -/
def isCheckmatePos (env : Env) (p : Pos) : Bool :=
  (env.legalMoves p).isEmpty && env.inCheck p

/-- Modelled from the spec: a `Node` bundles a Position, a RepetitionMap
view, a depth-from-root level and a remaining depth (`§3 Node`); the `Node`
partition is not in the repository snapshot. -/
structure Node where
  pos : Pos
  level : Nat
  remainingDepth : Nat
  rep : RepMap

/-- Modelled from the spec: child-`Node` construction `Node{node, priority}`
— apply the priority's move, one level deeper, remaining depth taken from the
priority's (possibly LMR-trimmed) recommended depth, repetition view updated
by the `Node` partition's (unavailable) policy `env.childRep`. -/
def mkChild (env : Env) (node : Node) (mp : MovePriority) : Node :=
  { pos := env.childPos node.pos mp.move
    level := node.level + 1
    remainingDepth := mp.recommendedDepth
    rep := env.childRep node.rep (env.childPos node.pos mp.move) }

/-- `Searcher::wouldMakeRepetition` (MoveSearch.cpp lines 113-117): the count
of the child position plus one (the child is not pushed yet) reaches 2. -/
def wouldMakeRepetition (env : Env) (pos : Pos) (pvMove : Move) (rep : RepMap) : Bool :=
  decide (2 ≤ rep (env.childPos pos pvMove) + 1)

/-- Killer-move insertion at a level of the killer table (MoveSearch.cpp
lines 221-225, for a non-capturing pruning move). -/
def addKiller (st : SearchState) (level : Nat) (m : Move) : SearchState :=
  { st with killers := fun l => if l = level then (st.killers level).add m else st.killers l }

/- ----------------------------------------------------------------
`bestChildPosition` and `tryShortCircuit`
---------------------------------------------------------------- -/

/-- The loop state `bestChildPosition` ends with: the best `MoveRating`, the
final window, the bound to store, whether the loop beta-pruned
(`!didNotPrune`), and the search context. -/
structure LoopOut where
  best : MoveRating
  ab : AlphaBeta
  bound : Bound
  pruned : Bool
  st : SearchState

/-- The child loop of `Searcher::bestChildPosition` (MoveSearch.cpp lines
192-235), parameterised over the recursive call `recurse`
(`tryShortCircuit<!Maximizing>`): recurse into the child built from the
priority; if the priority was LMR-trimmed and the child came back inside the
window in the favourable direction, rebuild the child at full depth
`remainingDepth - 1` and re-recurse; update the best rating by strict
comparison, update the window, and on `canPrune` record a killer move (when
the move is not a capture), set the fail bound and break; break without
pruning when the child rating equals the immediate-checkmate rating. -/
def childLoop (recurse : Bool → Node → AlphaBeta → SearchState → MoveRating × SearchState)
    (env : Env) (maximizing : Bool) (node : Node) :
    List MovePriority → MoveRating → AlphaBeta → SearchState → LoopOut
  | [], best, ab, st => ⟨best, ab, Bound.InWindow, false, st⟩
  | mp :: rest, best, ab, st =>
    let r1 := recurse (!maximizing) (mkChild env node mp) ab st
    let r2 :=
      if mp.trimmed = true then
        if (if maximizing then ab.alpha ≤ r1.1.rating else r1.1.rating ≤ ab.beta) then
          recurse (!maximizing)
            (mkChild env node { move := mp.move, recommendedDepth := node.remainingDepth - 1 })
            ab r1.2
        else r1
      else r1
    let best' :=
      if (if maximizing then best.rating < r2.1.rating else r2.1.rating < best.rating) then
        { r2.1 with move := mp.move }
      else best
    let ab' := AlphaBeta.update maximizing ab best'.rating
    if ab'.canPrune = true then
      let st' := if mp.move.isCapture = true then r2.2 else addKiller r2.2 node.level mp.move
      ⟨best', ab', if maximizing then Bound.LowerBound else Bound.UpperBound, true, st'⟩
    else if r2.1.rating = checkmatedRating (!maximizing) then
      ⟨best', ab', Bound.InWindow, false, r2.2⟩
    else
      childLoop recurse env maximizing node rest best' ab' r2.2

/-- Entry of `Searcher::bestChildPosition` up to the end of its child loop
(MoveSearch.cpp lines 178-235): index the killer table at `node.level`
(recorded in the `killerLevels` ghost), build the move priorities, shuffle
them when this is a helper above the randomization cutoff, and run the loop
from the null move at the worst rating with the incoming window. -/
def bestChildLoopOut (recurse : Bool → Node → AlphaBeta → SearchState → MoveRating × SearchState)
    (env : Env) (helper maximizing : Bool) (node : Node) (pvMove : Move)
    (ab : AlphaBeta) (st : SearchState) : LoopOut :=
  let st1 : SearchState := { st with killerLevels := node.level :: st.killerLevels }
  let killers := (st1.killers node.level).killerMoves
  let ps0 := env.order node.pos node.remainingDepth pvMove killers
  let ps := if helper = true ∧ node.level < RANDOMIZATION_CUTOFF then env.shuffle node.level ps0 else ps0
  childLoop recurse env maximizing node ps
    { move := Move.null, rating := worstPossibleRating maximizing } ab st1

/-- Tail of `Searcher::bestChildPosition` (MoveSearch.cpp lines 237-255):
apply the fail-low/fail-high bound correction against the original window
when the loop did not prune; store the result into the TT unless the best
rating carries `invalidTTEntry`; finally clear the flag on the returned
`MoveRating` so repetition does not propagate up the tree. -/
def bestChildPositionF (recurse : Bool → Node → AlphaBeta → SearchState → MoveRating × SearchState)
    (env : Env) (helper maximizing : Bool) (node : Node) (pvMove : Move)
    (ab : AlphaBeta) (st : SearchState) : MoveRating × SearchState :=
  let out := bestChildLoopOut recurse env helper maximizing node pvMove ab st
  let bound :=
    if out.pruned = true then out.bound
    else if maximizing then (if out.best.rating ≤ ab.alpha then Bound.UpperBound else out.bound)
    else (if ab.beta ≤ out.best.rating then Bound.LowerBound else out.bound)
  let st' :=
    if out.best.invalidTTEntry = true then out.st
    else storePositionEntry out.st node.pos
      ⟨out.best.move, out.best.rating, node.remainingDepth, bound⟩
  ({ out.best with invalidTTEntry := false }, st')

/-- One step of `Searcher::tryShortCircuit<Maximizing>` (MoveSearch.cpp lines
119-175), parameterised over the recursive call used for child subtrees.
In source order: terminal positions (stalemate scores 0, checkmate scores
`checkmatedRating` and reports the level); a repetition count `≥ 3` of the
node's own position returns the flagged null rating; a stop request returns
the node's heuristic rating; otherwise the TT is consulted unless this is a
helper worker's root (`canUseEntry`), capturing the entry's best move as the
PV hint and, when the entry is deep enough and its move would not repeat,
applying the bound rules; a done node returns the leaf evaluation; otherwise
`bestChildPosition` runs. -/
def searchStep (env : Env) (helper : Bool)
    (recurse : Bool → Node → AlphaBeta → SearchState → MoveRating × SearchState)
    (maximizing : Bool) (node : Node) (ab : AlphaBeta) (st : SearchState) :
    MoveRating × SearchState :=
  if (env.legalMoves node.pos).isEmpty = true then
    if isCheckmatePos env node.pos = true then
      (⟨Move.null, checkmatedRating maximizing, false, some node.level⟩, st)
    else
      (⟨Move.null, 0, false, none⟩, st)
  else if 3 ≤ node.rep node.pos then
    (⟨Move.null, 0, true, none⟩, st)
  else if env.stopRequested = true then
    (⟨Move.null, env.staticRating node.pos, false, none⟩, st)
  else
    let canUseEntry : Bool := !(helper && node.level == 0)
    let consult : Sum MoveRating (Move × AlphaBeta) :=
      if (!env.stopRequested && canUseEntry) = true then
        match getPositionEntry st node.pos with
        | none => Sum.inr (Move.null, ab)
        | some entry =>
          if wouldMakeRepetition env node.pos entry.bestMove node.rep = false ∧
              node.remainingDepth ≤ entry.depth then
            match entry.bound with
            | Bound.InWindow => Sum.inl ⟨entry.bestMove, entry.rating, false, none⟩
            | Bound.LowerBound =>
              if ab.beta ≤ entry.rating then Sum.inl ⟨entry.bestMove, entry.rating, false, none⟩
              else Sum.inr (entry.bestMove, ab.updateAlpha entry.rating)
            | Bound.UpperBound =>
              if entry.rating ≤ ab.alpha then Sum.inl ⟨entry.bestMove, entry.rating, false, none⟩
              else Sum.inr (entry.bestMove, ab.updateBeta entry.rating)
          else Sum.inr (entry.bestMove, ab)
      else Sum.inr (Move.null, ab)
    match consult with
    | Sum.inl r => (r, st)
    | Sum.inr pvAb =>
      if node.remainingDepth = 0 then
        (⟨Move.null, env.staticRating node.pos, false, none⟩, st)
      else
        bestChildPositionF recurse env helper maximizing node pvAb.1 pvAb.2 st

/-- `tryShortCircuit` with a fuel argument.  The mutual recursion
`tryShortCircuit` / `bestChildPosition` terminates because every child node's
remaining depth is strictly below its parent's; the fuel makes that measure
explicit, and a call with `node.remainingDepth < fuel` never reaches the
fuel-exhaustion branch (children satisfy the same bound one fuel lower, since
a done node returns before recursing). -/
def tryShortCircuitF (env : Env) (helper : Bool) :
    Nat → Bool → Node → AlphaBeta → SearchState → MoveRating × SearchState
  | 0 => fun _ node _ st => (⟨Move.null, env.staticRating node.pos, false, none⟩, st)
  | fuel + 1 => searchStep env helper (tryShortCircuitF env helper fuel)

/-- `Searcher::startAlphaBetaSearch` (MoveSearch.cpp lines 258-263): a fresh
full window and a root node at level 0. -/
def startAlphaBetaSearch (env : Env) (helper maximizing : Bool) (pos : Pos)
    (depth : Nat) (rep : RepMap) (st : SearchState) : MoveRating × SearchState :=
  tryShortCircuitF env helper (depth + 1) maximizing
    { pos := pos, level := 0, remainingDepth := depth, rep := rep } {} st

/-- `Searcher::iterativeDeepening` (MoveSearch.cpp lines 265-273): warm-up
searches at depths `1, …, depth - 1` whose move ratings are discarded but
whose TT writes persist, then the committed search at `depth`. -/
def iterativeDeepening (env : Env) (helper maximizing : Bool) (pos : Pos)
    (depth : Nat) (rep : RepMap) (st : SearchState) : MoveRating × SearchState :=
  let warm := (List.range' 1 (depth - 1)).foldl
    (fun s d => (startAlphaBetaSearch env helper maximizing pos d rep s).2) st
  startAlphaBetaSearch env helper maximizing pos depth rep warm

/-- `Searcher::operator()` (MoveSearch.cpp lines 275-281): dispatch on the
side to move. -/
def searcherRun (env : Env) (helper : Bool) (depth : Nat) (pos : Pos)
    (rep : RepMap) (st : SearchState) : MoveRating × SearchState :=
  iterativeDeepening env helper (env.isWhite pos) pos depth rep st

/- ----------------------------------------------------------------
Voting (`getVotingWeight`, `voteForBestMove`, `findBestMoveImpl`)
---------------------------------------------------------------- -/

/-- `Searcher::getVotingWeight` (MoveSearch.cpp lines 91-107): start from
`1 + 2^depth`, scale by `1.2 · (rating - worst) / maxScoreDiff` when the
score spread is nonzero, and when a checkmate level is present add
`ret / checkmate_level`.  In the source the division is floating-point, so a
checkmate level of `0` would divide by zero; in `ℚ` that division yields `0`
— claim C10 shows the branch is never reached from `voteForBestMove`, so the
two semantics are never told apart there. -/
def getVotingWeight (depth : Nat) (mr : MoveRating)
    (worstScore maxScoreDiff : Rating) : Rating :=
  let base : Rating := 1 + 2 ^ depth
  let scaled := if maxScoreDiff ≠ 0 then base * (12 / 10 * (mr.rating - worstScore) / maxScoreDiff) else base
  match mr.checkmateLevel with
  | some l => scaled + scaled / (l : Rating)
  | none => scaled

/-- `std::ranges::any_of(moves, …checkmateLevel.has_value())` (MoveSearch.cpp
lines 330-332). -/
def anyCheckmate (moves : List MoveRating) : Bool :=
  moves.any (fun mr => mr.checkmateLevel.isSome)

/-- The projection used by the `min_element` call picking the quickest
checkmate: a missing level counts as `255`. -/
def checkmateKey (mr : MoveRating) : Nat :=
  match mr.checkmateLevel with
  | none => 255
  | some l => l

/-- `std::ranges::min_element` over the checkmate keys (MoveSearch.cpp lines
334-340); `min_element` keeps the first of equal keys, hence the strict
comparison in the fold. -/
def quickestCheckmateMove (moves : List MoveRating) : Move :=
  match moves with
  | [] => Move.null
  | mr :: rest =>
    (rest.foldl (fun acc m => if checkmateKey m < checkmateKey acc then m else acc) mr).move

/-- The minimum rating across the worker results
(`std::ranges::minmax_element`, MoveSearch.cpp lines 343-347); the binary
minimum is spelt as its conditional so that it evaluates (it equals
`min a m.rating` by `min_def`). -/
def minRating : List MoveRating → Rating
  | [] => 0
  | mr :: rest => rest.foldl (fun a m => if a ≤ m.rating then a else m.rating) mr.rating

/-- The maximum rating across the worker results (the conditional equals
`max a m.rating` by `max_def`). -/
def maxRating : List MoveRating → Rating
  | [] => 0
  | mr :: rest => rest.foldl (fun a m => if a ≤ m.rating then m.rating else a) mr.rating

/-- The `std::unordered_map<Move, Rating>` of accumulated vote weights,
embedded as an upsert log (newest binding first). -/
abbrev VoteMap := List (Move × Rating)

/-- Reading `moveRatings[move]`: the newest binding, or the map's
default-constructed `0`. -/
def lookupVote (map : VoteMap) (mv : Move) : Rating :=
  (((map.find? (fun e => decide (e.1 = mv)))).map (fun e => e.2)).getD 0

/-- The voting loop of `voteForBestMove` (MoveSearch.cpp lines 353-363) over
`zip(moves, searchers)`, carrying the accumulation map, the current best move
and the best accumulated weight seen so far; a move takes the lead only by a
strictly greater accumulated weight. -/
def voteLoopFull (ws md : Rating) :
    List (MoveRating × Searcher) → VoteMap → Move → Rating → VoteMap × Move × Rating
  | [], map, bm, bv => (map, bm, bv)
  | (mr, s) :: rest, map, bm, bv =>
    let w := lookupVote map mr.move + getVotingWeight s.depth mr ws md
    let map' := (mr.move, w) :: map
    if bv < w then voteLoopFull ws md rest map' mr.move w
    else voteLoopFull ws md rest map' bm bv

/-- `voteForBestMove` (MoveSearch.cpp lines 329-366): if any worker reported
a checkmate level, return the first quickest checkmate; otherwise run the
weighted vote seeded with the null move at weight `0`. -/
def voteForBestMove (searchers : List Searcher) (moves : List MoveRating) : Move :=
  if anyCheckmate moves = true then quickestCheckmateMove moves
  else
    let ws := minRating moves
    let md := maxRating moves - ws
    (voteLoopFull ws md (moves.zip searchers) [] Move.null 0).2.1

/-- The total voting weight a move accumulates over a worker/result list
(claim C3's "accumulated weight", summed per distinct move). -/
def weightSum (ws md : Rating) (mv : Move) : List (MoveRating × Searcher) → Rating
  | [] => 0
  | (mr, s) :: rest =>
    (if mr.move = mv then getVotingWeight s.depth mr ws md else 0) + weightSum ws md mv rest

/-- The accumulated weight of a move in a `voteForBestMove` call, with the
worst score and spread computed from the result list as in the source. -/
def accumulatedWeight (searchers : List Searcher) (moves : List MoveRating) (mv : Move) : Rating :=
  weightSum (minRating moves) (maxRating moves - minRating moves) mv (moves.zip searchers)

/-- `std::ranges::any_of(moveCandidates, …move == Move::null())`
(MoveSearch.cpp lines 382-384). -/
def hasNullMove (moves : List MoveRating) : Bool :=
  moves.any (fun mr => decide (mr.move = Move.null))

/-- The post-barrier tail of `findBestMoveImpl` (MoveSearch.cpp lines
378-389): once the per-worker `MoveRating`s are collected, any null move
(cancelled worker or terminal root) yields no move, otherwise the weighted
vote's winner is returned. -/
def findBestMoveFromResults (searchers : List Searcher) (results : List MoveRating) : Option Move :=
  if hasNullMove results = true then none
  else some (voteForBestMove searchers results)

/- ----------------------------------------------------------------
`SearchThread::run`
---------------------------------------------------------------- -/

/-- `GameState` (`§3`): the position, the committed search depth and the
repetition map owned by the search thread. -/
structure GameState where
  pos : Pos
  depth : Nat
  rep : RepMap

/-- One pass of the committed-search portion of `SearchThread::run`
(SearchThread translation unit lines 196-219), after `think` has returned
and the thread is not stopping.  The concurrent inputs are explicit:
`result` is what `findBestMove` returned, `stopAfter` is the stop token's
value at the emission check, and `calcDuring` is the value of
`m_calculationRequested` observed under the lock (it was cleared before the
search; `calcDuring = true` means a fresh `go` arrived in between).  Returns
the emitted move (if any), the new game state, the new `should_ponder` and
the new `calculation_requested`. -/
def runStep (env : Env) (result : Option Move) (stopAfter calcDuring : Bool)
    (gs : GameState) (shouldPonder : Bool) : Option Move × GameState × Bool × Bool :=
  match result with
  | some m =>
    if stopAfter = true then (none, gs, shouldPonder, calcDuring)
    else if calcDuring = true then (some m, gs, shouldPonder, true)
    else (some m, { gs with pos := env.childPos gs.pos m }, true, false)
  | none => (none, gs, false, calcDuring)

/- ----------------------------------------------------------------
Claim-side definitions and concrete instances
---------------------------------------------------------------- -/

/-- Whether a level is a legal index into the killer-move table: the table
`m_killerMoves` is a `std::array` of dimension `MAX_DEPTH`, so exactly the
levels `< MAX_DEPTH` are in bounds. -/
def killerIndexInBounds (level : Nat) : Bool :=
  decide (level < MAX_DEPTH)

/-- Claim C2's description of the TT-consultation outcome, written from the
claim's words to be compared with `searchStep`: the entry's best move is
captured as the PV move regardless of the entry's depth; the entry causes an
immediate return or a window adjustment only when `entry.depth ≥
node.remaining_depth` and applying `entry.best_move` would not produce a
`≥2`-count repetition on the child, and then `InWindow` returns the entry,
`LowerBound` returns the entry iff `entry.rating ≥ beta` and otherwise
raises alpha, `UpperBound` returns the entry iff `entry.rating ≤ alpha` and
otherwise lowers beta. -/
def ttConsultClaim (env : Env) (entry : PositionEntry) (node : Node) (ab : AlphaBeta) :
    Sum MoveRating (Move × AlphaBeta) :=
  if node.remainingDepth ≤ entry.depth ∧
      wouldMakeRepetition env node.pos entry.bestMove node.rep = false then
    match entry.bound with
    | Bound.InWindow => Sum.inl ⟨entry.bestMove, entry.rating, false, none⟩
    | Bound.LowerBound =>
      if ab.beta ≤ entry.rating then Sum.inl ⟨entry.bestMove, entry.rating, false, none⟩
      else Sum.inr (entry.bestMove, ab.updateAlpha entry.rating)
    | Bound.UpperBound =>
      if entry.rating ≤ ab.alpha then Sum.inl ⟨entry.bestMove, entry.rating, false, none⟩
      else Sum.inr (entry.bestMove, ab.updateBeta entry.rating)
  else Sum.inr (entry.bestMove, ab)

/-- Position of the first worker result voting a given move, in
worker-enumeration order ("first-seen" in claim C3). -/
def firstSeenIndex (moves : List MoveRating) (mv : Move) : Nat :=
  moves.findIdx (fun mr => decide (mr.move = mv))

/-- A concrete environment used by witnesses: every position has the single
legal non-capturing move `⟨1, false⟩`, applying a move adds its identifier to
the position fingerprint (so the reachable positions form a chain), the
static evaluation is `0`, and the child repetition view increments the
child's count (the occurs-on-the-search-path reading of the spec's
repetition view). -/
def envA : Env where
  childPos := fun p m => p + m.id
  legalMoves := fun _ => [⟨1, false⟩]
  inCheck := fun _ => false
  staticRating := fun _ => 0
  isWhite := fun _ => true
  order := fun _ rem _ _ => [{ move := ⟨1, false⟩, recommendedDepth := rem - 1 }]
  shuffle := fun _ l => l
  childRep := fun r p => fun q => if q = p then r q + 1 else r q
  stopRequested := false

/-- A recursion stub for witnesses that exercise a single `searchStep`. -/
def recurse0 : Bool → Node → AlphaBeta → SearchState → MoveRating × SearchState :=
  fun _ _ _ st => (⟨Move.null, 0, false, none⟩, st)

/-- A recursion stub whose children come back carrying the repetition flag. -/
def recurseFlagged : Bool → Node → AlphaBeta → SearchState → MoveRating × SearchState :=
  fun _ _ _ st => (⟨Move.null, 5, true, none⟩, st)

/-- The root repetition view of the C5 counterexample: the child position `1`
already occurred twice, so visiting it pushes its count to `3`. -/
def repC5 : RepMap :=
  fun q => if q = 1 then 2 else 0

/-- The stored entry of the C2 witness: an `InWindow` entry of depth 5. -/
def entryW : PositionEntry :=
  ⟨⟨2, false⟩, 7, 5, Bound.InWindow⟩

/-- Worker results of the C3 counterexample: all four results rate `0` (so
the score-spread factor is skipped and every weight is `1 + 2^1 = 3`); move
`⟨1,false⟩` is voted by workers 0 and 3, move `⟨2,false⟩` by workers 1
and 2, so both moves accumulate weight `6`. -/
def cexMoves : List MoveRating :=
  [⟨⟨1, false⟩, 0, false, none⟩,
   ⟨⟨2, false⟩, 0, false, none⟩,
   ⟨⟨2, false⟩, 0, false, none⟩,
   ⟨⟨1, false⟩, 0, false, none⟩]

/-- The four workers of the C3 counterexample, all at depth 1 — exactly the
depths `assignDepths` produces for `max_depth = 1`. -/
def cexSearchers : List Searcher :=
  [⟨false, 1⟩, ⟨true, 1⟩, ⟨true, 1⟩, ⟨true, 1⟩]

/- ----------------------------------------------------------------
Helper lemmas
---------------------------------------------------------------- -/

theorem assignDepthsFrom_getElem? (maxDepth : Nat) :
    ∀ (searchers : List Searcher) (j i : Nat),
      (assignDepthsFrom maxDepth j searchers)[i]? =
        searchers[i]?.map
          (fun s => { s with depth := claimedDepth maxDepth s.helper (j + i) }) := by
  intro searchers
  induction searchers with
  | nil => intro j i; simp [assignDepthsFrom]
  | cons s rest ih =>
    intro j i
    cases i with
    | zero =>
      simp only [assignDepthsFrom, List.getElem?_cons_zero, Option.map_some,
        Nat.add_zero]
      by_cases hh : s.helper = false
      · simp [hh, claimedDepth]
      · simp only [hh, if_false]
        simp only [Bool.not_eq_false] at hh
        by_cases h1 : maxDepth = 1
        · simp [claimedDepth, hh, h1]
        · rcases Nat.even_or_odd j with he | ho
          · have hj : j % 2 = 0 := Nat.even_iff.mp he
            have hj' : ¬(j % 2 = 1) := by omega
            simp [claimedDepth, hh, h1, hj, hj']
          · have hj : j % 2 = 1 := Nat.odd_iff.mp ho
            have hj' : ¬(j % 2 = 0) := by omega
            simp [claimedDepth, hh, h1, hj, hj']
    | succ i' =>
      simp only [assignDepthsFrom, List.getElem?_cons_succ]
      rw [ih (j + 1) i']
      have h : j + 1 + i' = j + (i' + 1) := by omega
      rw [h]

theorem assignDepthsFrom_depth_pos (maxDepth : Nat) (hmd : 1 ≤ maxDepth) :
    ∀ (searchers : List Searcher) (j : Nat),
      ∀ s ∈ assignDepthsFrom maxDepth j searchers, 1 ≤ s.depth := by
  intro searchers
  induction searchers with
  | nil => intro j s hs; simp [assignDepthsFrom] at hs
  | cons x rest ih =>
    intro j s hs
    simp only [assignDepthsFrom, List.mem_cons] at hs
    rcases hs with hs | hs
    · subst hs
      by_cases hh : x.helper = false
      · simpa [hh] using hmd
      · by_cases h1 : maxDepth = 1
        · simp [hh, h1]
        · by_cases hj : j % 2 = 0 <;> simp [hh, h1, hj] <;> omega
    · exact ih (j + 1) s hs

/- ----------------------------------------------------------------
Claim C7 — LMR trim monotonicity
---------------------------------------------------------------- -/

/-- C7: for every `MovePriority` and every move index (hence for every value
`reducedDepth` the double-precision reduction formula can produce at any
index), the `recommended_depth` after `trim` lies in `[0, original_depth]` —
never below zero (it is a natural number, and `subToMin` clamps at the floor
`0`), never above the value it had before the call — and a second `trim`
cannot increase it. -/
theorem trim_monotone (mp : MovePriority) (r1 r2 : Nat) :
    0 ≤ (mp.trim r1).recommendedDepth ∧
    (mp.trim r1).recommendedDepth ≤ mp.recommendedDepth ∧
    ((mp.trim r1).trim r2).recommendedDepth ≤ (mp.trim r1).recommendedDepth := by
  refine ⟨Nat.zero_le _, ?_, ?_⟩
  · simp only [MovePriority.trim]
    exact Nat.min_le_left _ _
  · simp only [MovePriority.trim]
    exact Nat.min_le_left _ _

/- ----------------------------------------------------------------
Claim C6 — depth staggering
---------------------------------------------------------------- -/

/-- C6: for every `max_depth ≥ 1` (the function's entry assertion), the depth
assignment gives every non-helper worker `max_depth` and gives the helper at
enumerate index `i` the depth `max_depth` when `max_depth = 1`, else
`max_depth` when `i` is odd and `max_depth - 1` when `i` is even (in the
worker list built by `AsyncSearchState` the main worker sits at index 0, so
a helper's enumerate index is its 1-based position among the workers); and
every worker is assigned a depth of at least 1. -/
theorem assignDepths_spec (maxDepth : Nat) (searchers : List Searcher)
    (hmd : 1 ≤ maxDepth) :
    (∀ i : Nat, (assignDepths maxDepth searchers)[i]? =
      searchers[i]?.map (fun s => { s with depth := claimedDepth maxDepth s.helper i })) ∧
    (∀ s ∈ assignDepths maxDepth searchers, 1 ≤ s.depth) := by
  constructor
  · intro i
    have h := assignDepthsFrom_getElem? maxDepth searchers 0 i
    simpa [assignDepths] using h
  · intro s hs
    exact assignDepthsFrom_depth_pos maxDepth hmd searchers 0 s hs

/-- Witness for C6 at `max_depth = 3` and workers `[main, helper, helper]`. -/
theorem assignDepths_spec_witness :
    1 ≤ 3 ∧
    ((∀ i : Nat, (assignDepths 3 [⟨false, 0⟩, ⟨true, 0⟩, ⟨true, 0⟩])[i]? =
        ([⟨false, 0⟩, ⟨true, 0⟩, ⟨true, 0⟩] : List Searcher)[i]?.map
          (fun s => { s with depth := claimedDepth 3 s.helper i })) ∧
      (∀ s ∈ assignDepths 3 [⟨false, 0⟩, ⟨true, 0⟩, ⟨true, 0⟩], 1 ≤ s.depth)) :=
  ⟨by decide, assignDepths_spec 3 [⟨false, 0⟩, ⟨true, 0⟩, ⟨true, 0⟩] (by decide)⟩

/- ----------------------------------------------------------------
Claim C8 — committed-search handling in `SearchThread::run`
---------------------------------------------------------------- -/

/-- C8: in the search thread's main loop, when the committed search returns a
move and shutdown has not been requested, the thread emits the move, and then
— unless a fresh `calculation_requested` arrived in the meantime — applies
that move to its stored position and sets `should_ponder := true` (clearing
the pending-request flag); with a fresh request pending the state is left for
the next committed search; when the committed search returns no move,
`should_ponder` is cleared; and under a stop request nothing is emitted. -/
theorem runStep_spec (env : Env) (m : Move) (gs : GameState) (sp : Bool) :
    runStep env (some m) false false gs sp =
      (some m, { gs with pos := env.childPos gs.pos m }, true, false) ∧
    runStep env (some m) false true gs sp = (some m, gs, sp, true) ∧
    (∀ stopAfter calcDuring : Bool,
      runStep env none stopAfter calcDuring gs sp = (none, gs, false, calcDuring)) ∧
    (∀ calcDuring : Bool,
      runStep env (some m) true calcDuring gs sp = (none, gs, sp, calcDuring)) :=
  ⟨rfl, rfl, fun _ _ => rfl, fun _ => rfl⟩

/- ----------------------------------------------------------------
Claim C4 — the repetition flag and TT-write suppression
---------------------------------------------------------------- -/

/-- C4: a node whose own position has at least one legal move and a
repetition count `≥ 3` makes `tryShortCircuit` return the null move with
rating `0` and `invalid_tt_entry = true`, with no state change (the
legal-move hypothesis records the source's check order: an empty-move
terminal position returns through the stalemate/checkmate branch first, and
a position whose count is `≥ 3` occurred before, hence has legal moves); a
parent whose best child result carries the flag performs no
transposition-table store for its node (its final state is exactly the
loop's state); and the flag is always cleared on the `MoveRating` the parent
returns, so it never propagates more than one level up the tree. -/
theorem repetition_flag_spec :
    (∀ (env : Env) (helper : Bool)
        (recurse : Bool → Node → AlphaBeta → SearchState → MoveRating × SearchState)
        (maximizing : Bool) (node : Node) (ab : AlphaBeta) (st : SearchState),
      (env.legalMoves node.pos).isEmpty = false →
      3 ≤ node.rep node.pos →
      searchStep env helper recurse maximizing node ab st = (⟨Move.null, 0, true, none⟩, st)) ∧
    (∀ (recurse : Bool → Node → AlphaBeta → SearchState → MoveRating × SearchState)
        (env : Env) (helper maximizing : Bool) (node : Node) (pv : Move)
        (ab : AlphaBeta) (st : SearchState),
      (bestChildLoopOut recurse env helper maximizing node pv ab st).best.invalidTTEntry = true →
      (bestChildPositionF recurse env helper maximizing node pv ab st).2 =
        (bestChildLoopOut recurse env helper maximizing node pv ab st).st) ∧
    (∀ (recurse : Bool → Node → AlphaBeta → SearchState → MoveRating × SearchState)
        (env : Env) (helper maximizing : Bool) (node : Node) (pv : Move)
        (ab : AlphaBeta) (st : SearchState),
      (bestChildPositionF recurse env helper maximizing node pv ab st).1.invalidTTEntry = false) := by
  refine ⟨?_, ?_, ?_⟩
  · intro env helper recurse maximizing node ab st hleg hrep
    simp [searchStep, hleg, hrep]
  · intro recurse env helper maximizing node pv ab st hflag
    simp [bestChildPositionF, hflag]
  · intro recurse env helper maximizing node pv ab st
    rfl

/-- Witness for C4: a node with one legal move whose position count is 3 is
short-circuited to the flagged null rating; a loop whose children come back
flagged yields a parent that skips its store and returns the flag cleared. -/
theorem repetition_flag_spec_witness :
    ((envA.legalMoves 0).isEmpty = false ∧ 3 ≤ (fun _ => 3 : RepMap) 0 ∧
      searchStep envA false recurse0 true ⟨0, 0, 1, fun _ => 3⟩ {} {} =
        (⟨Move.null, 0, true, none⟩, {})) ∧
    ((bestChildLoopOut recurseFlagged envA false true ⟨0, 0, 1, fun _ => 0⟩ Move.null {} {}).best.invalidTTEntry = true ∧
      (bestChildPositionF recurseFlagged envA false true ⟨0, 0, 1, fun _ => 0⟩ Move.null {} {}).2 =
        (bestChildLoopOut recurseFlagged envA false true ⟨0, 0, 1, fun _ => 0⟩ Move.null {} {}).st) ∧
    (bestChildPositionF recurseFlagged envA false true ⟨0, 0, 1, fun _ => 0⟩ Move.null {} {}).1.invalidTTEntry = false :=
  ⟨⟨by decide, by decide,
      repetition_flag_spec.1 envA false recurse0 true ⟨0, 0, 1, fun _ => 3⟩ {} {} (by decide) (by decide)⟩,
    ⟨by decide,
      repetition_flag_spec.2.1 recurseFlagged envA false true ⟨0, 0, 1, fun _ => 0⟩ Move.null {} {} (by decide)⟩,
    repetition_flag_spec.2.2 recurseFlagged envA false true ⟨0, 0, 1, fun _ => 0⟩ Move.null {} {}⟩

/- ----------------------------------------------------------------
Claim C2 — TT consultation in `tryShortCircuit`
---------------------------------------------------------------- -/

/-- C2: for every node that reaches TT consultation with an entry present
(at least one legal move, own repetition count below 3, no stop request, and
not a helper worker's root), `tryShortCircuit` behaves exactly as
`ttConsultClaim` describes: the entry's best move is captured as the PV move
regardless of the entry's depth, and the entry causes an immediate return or
a window adjustment only when `entry.depth ≥ node.remaining_depth` and
applying `entry.best_move` would not produce a `≥2`-count repetition on the
child, in which case `InWindow` returns the entry, `LowerBound` returns the
entry iff `entry.rating ≥ beta` and otherwise raises alpha, and `UpperBound`
returns the entry iff `entry.rating ≤ alpha` and otherwise lowers beta. -/
theorem tryShortCircuit_tt_spec (env : Env) (helper : Bool)
    (recurse : Bool → Node → AlphaBeta → SearchState → MoveRating × SearchState)
    (maximizing : Bool) (node : Node) (ab : AlphaBeta) (st : SearchState)
    (entry : PositionEntry)
    (hleg : (env.legalMoves node.pos).isEmpty = false)
    (hrep : node.rep node.pos < 3)
    (hstop : env.stopRequested = false)
    (hroot : (helper && node.level == 0) = false)
    (hentry : getPositionEntry st node.pos = some entry) :
    searchStep env helper recurse maximizing node ab st =
      match ttConsultClaim env entry node ab with
      | Sum.inl r => (r, st)
      | Sum.inr pvAb =>
        if node.remainingDepth = 0 then
          (⟨Move.null, env.staticRating node.pos, false, none⟩, st)
        else bestChildPositionF recurse env helper maximizing node pvAb.1 pvAb.2 st := by
  have hrep' : ¬ (3 ≤ node.rep node.pos) := by omega
  simp only [searchStep, hleg, Bool.false_eq_true, if_false, hrep', hstop, hroot,
    Bool.not_false, Bool.and_true, ttConsultClaim, hentry]
  by_cases h1 : wouldMakeRepetition env node.pos entry.bestMove node.rep = false
  · by_cases h2 : node.remainingDepth ≤ entry.depth
    · simp only [h1, h2, and_true, true_and, if_true, if_pos (And.intro h1 h2),
        if_pos (And.intro h2 h1)]
    · simp only [if_neg (fun h : _ ∧ _ => h2 h.2), if_neg (fun h : _ ∧ _ => h2 h.1)]
      simp
  · simp only [if_neg (fun h : _ ∧ _ => h1 h.1), if_neg (fun h : _ ∧ _ => h1 h.2)]
    simp

/-- Witness for C2: a non-root node with an `InWindow` entry of sufficient
depth whose move does not repeat returns the entry directly. -/
theorem tryShortCircuit_tt_spec_witness :
    ((envA.legalMoves 0).isEmpty = false ∧ (0 : Nat) < 3 ∧
      envA.stopRequested = false ∧ (true && (1 : Nat) == 0) = false ∧
      getPositionEntry { tt := [(0, entryW)] } 0 = some entryW) ∧
    searchStep envA true recurse0 true ⟨0, 1, 2, fun _ => 0⟩ {} { tt := [(0, entryW)] } =
      match ttConsultClaim envA entryW ⟨0, 1, 2, fun _ => 0⟩ {} with
      | Sum.inl r => (r, { tt := [(0, entryW)] })
      | Sum.inr pvAb =>
        if (2 : Nat) = 0 then
          (⟨Move.null, envA.staticRating 0, false, none⟩, { tt := [(0, entryW)] })
        else bestChildPositionF recurse0 envA true true ⟨0, 1, 2, fun _ => 0⟩ pvAb.1 pvAb.2 { tt := [(0, entryW)] } :=
  ⟨⟨by decide, by decide, by decide, by decide, by decide⟩,
    tryShortCircuit_tt_spec envA true recurse0 true ⟨0, 1, 2, fun _ => 0⟩ {} { tt := [(0, entryW)] }
      entryW (by decide) (by decide) (by decide) (by decide) (by decide)⟩

/- ----------------------------------------------------------------
Claim C5 — helper-at-root TT asymmetry
---------------------------------------------------------------- -/

/-- C5 (amended): a helper worker's root node never consumes a
transposition-table entry — whatever the table holds, the search proceeds
into child selection with a null PV hint and the incoming window untouched,
so no cutoff, no window adjustment and no PV hint are taken from the table;
and the helper still stores an entry for the root position on the way back
whenever the best child result does not carry the `invalid_tt_entry` flag
(with the flag set, the store is skipped, as claim C4 requires — the
counterexample shows the unconditional form of the claim fails there). -/
theorem helper_root_tt_spec :
    (∀ (env : Env)
        (recurse : Bool → Node → AlphaBeta → SearchState → MoveRating × SearchState)
        (maximizing : Bool) (node : Node) (ab : AlphaBeta) (st : SearchState),
      node.level = 0 →
      (env.legalMoves node.pos).isEmpty = false →
      node.rep node.pos < 3 →
      env.stopRequested = false →
      node.remainingDepth ≠ 0 →
      searchStep env true recurse maximizing node ab st =
        bestChildPositionF recurse env true maximizing node Move.null ab st) ∧
    (∀ (recurse : Bool → Node → AlphaBeta → SearchState → MoveRating × SearchState)
        (env : Env) (helper maximizing : Bool) (node : Node) (pv : Move)
        (ab : AlphaBeta) (st : SearchState),
      (bestChildLoopOut recurse env helper maximizing node pv ab st).best.invalidTTEntry = false →
      (getPositionEntry (bestChildPositionF recurse env helper maximizing node pv ab st).2 node.pos).isSome = true) := by
  constructor
  · intro env recurse maximizing node ab st hlvl hleg hrep hstop hdone
    have hrep' : ¬ (3 ≤ node.rep node.pos) := by omega
    simp [searchStep, hleg, hrep', hstop, hlvl, hdone]
  · intro recurse env helper maximizing node pv ab st hflag
    simp [bestChildPositionF, hflag, storePositionEntry, getPositionEntry, List.find?]

/-- Witness for C5: a helper root with a TT entry present ignores it and
recurses with a null PV hint; a loop ending unflagged leaves an entry for the
node's position in the table. -/
theorem helper_root_tt_spec_witness :
    ((envA.legalMoves 0).isEmpty = false ∧ (0 : Nat) < 3 ∧ envA.stopRequested = false ∧
      (2 : Nat) ≠ 0 ∧
      searchStep envA true recurse0 true ⟨0, 0, 2, fun _ => 0⟩ {} { tt := [(0, entryW)] } =
        bestChildPositionF recurse0 envA true true ⟨0, 0, 2, fun _ => 0⟩ Move.null {} { tt := [(0, entryW)] }) ∧
    ((bestChildLoopOut recurse0 envA false true ⟨0, 0, 1, fun _ => 0⟩ Move.null {} {}).best.invalidTTEntry = false ∧
      (getPositionEntry (bestChildPositionF recurse0 envA false true ⟨0, 0, 1, fun _ => 0⟩ Move.null {} {}).2 0).isSome = true) :=
  ⟨⟨by decide, by decide, by decide, by decide,
      helper_root_tt_spec.1 envA recurse0 true ⟨0, 0, 2, fun _ => 0⟩ {} { tt := [(0, entryW)] }
        rfl (by decide) (by decide) (by decide) (by decide)⟩,
    ⟨by decide,
      helper_root_tt_spec.2 recurse0 envA false true ⟨0, 0, 1, fun _ => 0⟩ Move.null {} {} (by decide)⟩⟩

/-- C5 counterexample: a helper worker's completed root search (depth 2, one
legal move, whose only child hits a third repetition and comes back flagged)
chooses a real move yet ends with an empty transposition table — the claim's
"the helper still stores an entry for the root position on the way back"
fails as stated. -/
theorem helper_root_no_store_counterexample :
    (tryShortCircuitF envA true 3 true ⟨0, 0, 2, repC5⟩ {} {}).2.tt = [] ∧
    (tryShortCircuitF envA true 3 true ⟨0, 0, 2, repC5⟩ {} {}).1 =
      ⟨⟨1, false⟩, 0, false, none⟩ := by
  constructor
  · decide
  · decide

/- ----------------------------------------------------------------
Claim C9 — null-move results and the coordinator
---------------------------------------------------------------- -/

/-- C9: the coordinator returns "no move" exactly when some worker's
`MoveRating` contains the null move, and otherwise returns the weighted
vote's winner; in particular a worker whose root position has no legal moves
(stalemate, at any depth) returns the null move, and so does a worker whose
search was cancelled at the root when its stop flag was observed set. -/
theorem findBestMove_null_spec :
    (∀ (searchers : List Searcher) (results : List MoveRating),
      (∃ mr ∈ results, mr.move = Move.null) →
      findBestMoveFromResults searchers results = none) ∧
    (∀ (searchers : List Searcher) (results : List MoveRating),
      (∀ mr ∈ results, mr.move ≠ Move.null) →
      findBestMoveFromResults searchers results = some (voteForBestMove searchers results)) ∧
    (∀ (env : Env) (helper : Bool) (depth : Nat) (pos : Pos) (rep : RepMap) (st : SearchState),
      env.legalMoves pos = [] →
      (searcherRun env helper depth pos rep st).1.move = Move.null) ∧
    (∀ (env : Env) (helper : Bool) (depth : Nat) (pos : Pos) (rep : RepMap) (st : SearchState),
      env.stopRequested = true →
      (searcherRun env helper depth pos rep st).1.move = Move.null) := by
  refine ⟨?_, ?_, ?_, ?_⟩
  · intro searchers results h
    have hh : hasNullMove results = true := by
      rcases h with ⟨mr, hmr, hmv⟩
      simp only [hasNullMove, List.any_eq_true]
      exact ⟨mr, hmr, by simp [hmv]⟩
    simp [findBestMoveFromResults, hh]
  · intro searchers results h
    have hh : hasNullMove results = false := by
      simp only [hasNullMove, List.any_eq_false]
      intro mr hmr
      simp [h mr hmr]
    simp [findBestMoveFromResults, hh]
  · intro env helper depth pos rep st hleg
    simp only [searcherRun, iterativeDeepening, startAlphaBetaSearch, tryShortCircuitF,
      searchStep, hleg]
    by_cases hcm : isCheckmatePos env pos = true <;> simp [hcm]
  · intro env helper depth pos rep st hstop
    simp only [searcherRun, iterativeDeepening, startAlphaBetaSearch, tryShortCircuitF,
      searchStep]
    by_cases hleg : (env.legalMoves pos).isEmpty = true
    · by_cases hcm : isCheckmatePos env pos = true <;> simp [hleg, hcm]
    · by_cases hrep : 3 ≤ rep pos
      · simp [hleg, hrep]
      · simp [hleg, hrep, hstop]

/-- Witness for C9: a flagged null result forces "no move"; a clean result
list goes to the vote; a worker on a position with no legal moves (stalemate
at depth 1) returns the null move; a cancelled worker returns the null
move. -/
theorem findBestMove_null_spec_witness :
    ((∃ mr ∈ [(⟨Move.null, 0, false, none⟩ : MoveRating)], mr.move = Move.null) ∧
      findBestMoveFromResults [⟨false, 1⟩] [⟨Move.null, 0, false, none⟩] = none) ∧
    ((∀ mr ∈ [(⟨⟨1, false⟩, 0, false, none⟩ : MoveRating)], mr.move ≠ Move.null) ∧
      findBestMoveFromResults [⟨false, 1⟩] [⟨⟨1, false⟩, 0, false, none⟩] =
        some (voteForBestMove [⟨false, 1⟩] [⟨⟨1, false⟩, 0, false, none⟩])) ∧
    ({ envA with legalMoves := fun _ => [] }.legalMoves 7 = [] ∧
      (searcherRun { envA with legalMoves := fun _ => [] } false 1 7 (fun _ => 0) {}).1.move = Move.null) ∧
    ({ envA with stopRequested := true }.stopRequested = true ∧
      (searcherRun { envA with stopRequested := true } false 1 7 (fun _ => 0) {}).1.move = Move.null) :=
  ⟨⟨⟨⟨Move.null, 0, false, none⟩, by decide, rfl⟩,
      findBestMove_null_spec.1 [⟨false, 1⟩] [⟨Move.null, 0, false, none⟩]
        ⟨⟨Move.null, 0, false, none⟩, by decide, rfl⟩⟩,
    ⟨by decide,
      findBestMove_null_spec.2.1 [⟨false, 1⟩] [⟨⟨1, false⟩, 0, false, none⟩] (by decide)⟩,
    ⟨rfl,
      findBestMove_null_spec.2.2.1 { envA with legalMoves := fun _ => [] } false 1 7 (fun _ => 0) {} rfl⟩,
    ⟨rfl,
      findBestMove_null_spec.2.2.2 { envA with stopRequested := true } false 1 7 (fun _ => 0) {} rfl⟩⟩

/- ----------------------------------------------------------------
Claim C10 — `getVotingWeight` and checkmate levels
---------------------------------------------------------------- -/

/-- C10: whenever any result carries a checkmate level, `voteForBestMove`
returns the minimum-checkmate-level move before reaching the weighted loop,
so in the weighted loop — the only call site of `getVotingWeight` — every
`MoveRating` has `checkmate_level` unset; and on such a `MoveRating` the
weight is just the depth/score term, the branch dividing by
`checkmate_level` (division by zero for a mate at level 0) is not taken. -/
theorem votingWeight_no_checkmate_division :
    (∀ (searchers : List Searcher) (moves : List MoveRating),
      anyCheckmate moves = true →
      voteForBestMove searchers moves = quickestCheckmateMove moves) ∧
    (∀ moves : List MoveRating,
      anyCheckmate moves = false → ∀ mr ∈ moves, mr.checkmateLevel = none) ∧
    (∀ (d : Nat) (mr : MoveRating) (ws md : Rating),
      mr.checkmateLevel = none →
      getVotingWeight d mr ws md =
        (if md ≠ 0 then (1 + 2 ^ d) * (12 / 10 * (mr.rating - ws) / md) else 1 + 2 ^ d)) := by
  refine ⟨?_, ?_, ?_⟩
  · intro searchers moves h
    simp [voteForBestMove, h]
  · intro moves h mr hmr
    simp only [anyCheckmate, List.any_eq_false] at h
    have h2 := h mr hmr
    cases hcl : mr.checkmateLevel with
    | none => rfl
    | some l => simp [hcl] at h2
  · intro d mr ws md h
    simp [getVotingWeight, h]

/-- Witness for C10: a result list holding a mate level short-circuits to the
quickest mate; a list without mate levels has none anywhere; and the weight
of an unset-level result carries no checkmate term. -/
theorem votingWeight_no_checkmate_division_witness :
    (anyCheckmate [⟨⟨1, false⟩, 0, false, some 2⟩] = true ∧
      voteForBestMove [⟨false, 1⟩] [⟨⟨1, false⟩, 0, false, some 2⟩] =
        quickestCheckmateMove [⟨⟨1, false⟩, 0, false, some 2⟩]) ∧
    (anyCheckmate [⟨⟨1, false⟩, 0, false, none⟩] = false ∧
      ∀ mr ∈ [(⟨⟨1, false⟩, 0, false, none⟩ : MoveRating)], mr.checkmateLevel = none) ∧
    ((⟨⟨1, false⟩, 3, false, none⟩ : MoveRating).checkmateLevel = none ∧
      getVotingWeight 2 ⟨⟨1, false⟩, 3, false, none⟩ 1 4 =
        (if (4 : Rating) ≠ 0 then ((1 : Rating) + 2 ^ 2) * (12 / 10 * ((3 : Rating) - 1) / 4) else 1 + 2 ^ 2)) :=
  ⟨⟨by decide,
      votingWeight_no_checkmate_division.1 [⟨false, 1⟩] [⟨⟨1, false⟩, 0, false, some 2⟩] (by decide)⟩,
    ⟨by decide,
      votingWeight_no_checkmate_division.2.1 [⟨⟨1, false⟩, 0, false, none⟩] (by decide)⟩,
    ⟨rfl,
      votingWeight_no_checkmate_division.2.2 2 ⟨⟨1, false⟩, 3, false, none⟩ 1 4 rfl⟩⟩

/- ----------------------------------------------------------------
Claim C3 — helper lemmas on the voting loop
---------------------------------------------------------------- -/

theorem lookupVote_cons (mv0 : Move) (r : Rating) (map : VoteMap) (mv : Move) :
    lookupVote ((mv0, r) :: map) mv = if mv0 = mv then r else lookupVote map mv := by
  by_cases h : mv0 = mv
  · simp [lookupVote, List.find?, h]
  · simp [lookupVote, List.find?, h]

theorem lookupVote_nil (mv : Move) : lookupVote [] mv = 0 := rfl

theorem checkmateLevel_none_of_no_checkmate {moves : List MoveRating}
    (h : anyCheckmate moves = false) : ∀ mr ∈ moves, mr.checkmateLevel = none := by
  intro mr hmr
  simp only [anyCheckmate, List.any_eq_false] at h
  have h2 := h mr hmr
  cases hcl : mr.checkmateLevel with
  | none => rfl
  | some l => simp [hcl] at h2

theorem foldl_min_spec (l : List MoveRating) :
    (∀ a : Rating, l.foldl (fun x m => min x m.rating) a ≤ a) ∧
    (∀ (a : Rating) (m : MoveRating), m ∈ l → l.foldl (fun x m => min x m.rating) a ≤ m.rating) := by
  induction l with
  | nil =>
    refine ⟨fun a => le_refl a, fun a m hm => ?_⟩
    simp at hm
  | cons x xs ih =>
    refine ⟨fun a => ?_, fun a m hm => ?_⟩
    · exact le_trans (ih.1 (min a x.rating)) (min_le_left _ _)
    · rcases List.mem_cons.mp hm with h | h
      · subst h
        exact le_trans (ih.1 (min a m.rating)) (min_le_right _ _)
      · exact ih.2 (min a x.rating) m h

theorem foldl_max_spec (l : List MoveRating) :
    (∀ a : Rating, a ≤ l.foldl (fun x m => max x m.rating) a) ∧
    (∀ (a : Rating) (m : MoveRating), m ∈ l → m.rating ≤ l.foldl (fun x m => max x m.rating) a) := by
  induction l with
  | nil =>
    refine ⟨fun a => le_refl a, fun a m hm => ?_⟩
    simp at hm
  | cons x xs ih =>
    refine ⟨fun a => ?_, fun a m hm => ?_⟩
    · exact le_trans (le_max_left _ _) (ih.1 (max a x.rating))
    · rcases List.mem_cons.mp hm with h | h
      · subst h
        exact le_trans (le_max_right _ _) (ih.1 (max a m.rating))
      · exact ih.2 (max a x.rating) m h

theorem minFold_eq :
    (fun (a : Rating) (m : MoveRating) => if a ≤ m.rating then a else m.rating) =
      fun (a : Rating) (m : MoveRating) => min a m.rating := by
  funext a m
  rw [min_def]

theorem maxFold_eq :
    (fun (a : Rating) (m : MoveRating) => if a ≤ m.rating then m.rating else a) =
      fun (a : Rating) (m : MoveRating) => max a m.rating := by
  funext a m
  rw [max_def]

theorem minRating_le_of_mem {moves : List MoveRating} {mr : MoveRating} (h : mr ∈ moves) :
    minRating moves ≤ mr.rating := by
  cases moves with
  | nil => simp at h
  | cons x xs =>
    show xs.foldl (fun a m => if a ≤ m.rating then a else m.rating) x.rating ≤ mr.rating
    rw [minFold_eq]
    rcases List.mem_cons.mp h with hh | hh
    · subst hh
      exact (foldl_min_spec xs).1 mr.rating
    · exact (foldl_min_spec xs).2 x.rating mr hh

theorem le_maxRating_of_mem {moves : List MoveRating} {mr : MoveRating} (h : mr ∈ moves) :
    mr.rating ≤ maxRating moves := by
  cases moves with
  | nil => simp at h
  | cons x xs =>
    show mr.rating ≤ xs.foldl (fun a m => if a ≤ m.rating then m.rating else a) x.rating
    rw [maxFold_eq]
    rcases List.mem_cons.mp h with hh | hh
    · subst hh
      exact (foldl_max_spec xs).1 mr.rating
    · exact (foldl_max_spec xs).2 x.rating mr hh

theorem foldl_max_attained (l : List MoveRating) :
    ∀ a : Rating, l.foldl (fun x m => max x m.rating) a = a ∨
      ∃ m ∈ l, l.foldl (fun x m => max x m.rating) a = m.rating := by
  induction l with
  | nil => intro a; left; rfl
  | cons x xs ih =>
    intro a
    rcases ih (max a x.rating) with h | ⟨m, hm, hme⟩
    · rcases le_total a x.rating with hle | hle
      · right
        refine ⟨x, List.mem_cons_self _ _, ?_⟩
        simpa [max_eq_right hle] using h
      · left
        simpa [max_eq_left hle] using h
    · right
      exact ⟨m, List.mem_cons_of_mem _ hm, hme⟩

theorem maxRating_attained {moves : List MoveRating} (h : moves ≠ []) :
    ∃ mr ∈ moves, maxRating moves = mr.rating := by
  cases moves with
  | nil => exact absurd rfl h
  | cons x xs =>
    have he : maxRating (x :: xs) = xs.foldl (fun a m => max a m.rating) x.rating := by
      show xs.foldl (fun a m => if a ≤ m.rating then m.rating else a) x.rating = _
      rw [maxFold_eq]
    rw [he]
    rcases foldl_max_attained xs x.rating with hh | ⟨m, hm, hme⟩
    · exact ⟨x, List.mem_cons_self _ _, hh⟩
    · exact ⟨m, List.mem_cons_of_mem _ hm, hme⟩

theorem getVotingWeight_nonneg (d : Nat) (mr : MoveRating) (ws md : Rating)
    (h1 : ws ≤ mr.rating) (h2 : 0 ≤ md) :
    0 ≤ getVotingWeight d mr ws md := by
  have hbase : (0 : Rating) ≤ 1 + 2 ^ d := by positivity
  have hscaled : (0 : Rating) ≤
      (if md ≠ 0 then (1 + 2 ^ d) * (12 / 10 * (mr.rating - ws) / md) else 1 + 2 ^ d) := by
    split
    · have hmd : 0 < md := lt_of_le_of_ne h2 (Ne.symm (by assumption))
      have hnum : (0 : Rating) ≤ 12 / 10 * (mr.rating - ws) := by
        have := sub_nonneg.mpr h1
        positivity
      exact mul_nonneg hbase (div_nonneg hnum hmd.le)
    · exact hbase
  cases hcl : mr.checkmateLevel with
  | none => simpa [getVotingWeight, hcl] using hscaled
  | some l =>
    simp only [getVotingWeight, hcl]
    have : (0 : Rating) ≤ (l : Rating) := by positivity
    refine add_nonneg hscaled (div_nonneg hscaled this)

theorem getVotingWeight_no_level (d : Nat) (mr : MoveRating) (ws md : Rating)
    (h : mr.checkmateLevel = none) :
    getVotingWeight d mr ws md =
      (if md ≠ 0 then (1 + 2 ^ d) * (12 / 10 * (mr.rating - ws) / md) else 1 + 2 ^ d) := by
  simp [getVotingWeight, h]

/-- The single induction behind claim C3: along the voting loop, the map
holds each move's accumulated weight over the processed prefix, the best
accumulated weight dominates every map entry, the recorded best move's entry
equals the best weight, the best move comes from the inputs, and with a
strictly positive weight in the inputs the loop cannot end on the null
seed. -/
theorem voteLoopFull_invariant (ws md : Rating) :
    ∀ (pairs : List (MoveRating × Searcher)) (map : VoteMap) (bm : Move) (bv : Rating),
      (∀ p ∈ pairs, 0 ≤ getVotingWeight p.2.depth p.1 ws md) →
      (∀ p ∈ pairs, p.1.move ≠ Move.null) →
      (∀ mv, lookupVote map mv ≤ bv) →
      (∀ mv, 0 ≤ lookupVote map mv) →
      (bm = Move.null → bv = 0) →
      (bm ≠ Move.null → lookupVote map bm = bv) →
      (∀ mv, lookupVote (voteLoopFull ws md pairs map bm bv).1 mv =
          lookupVote map mv + weightSum ws md mv pairs) ∧
      (∀ mv, lookupVote (voteLoopFull ws md pairs map bm bv).1 mv ≤
          (voteLoopFull ws md pairs map bm bv).2.2) ∧
      ((voteLoopFull ws md pairs map bm bv).2.1 ≠ Move.null →
        lookupVote (voteLoopFull ws md pairs map bm bv).1 (voteLoopFull ws md pairs map bm bv).2.1 =
          (voteLoopFull ws md pairs map bm bv).2.2) ∧
      ((voteLoopFull ws md pairs map bm bv).2.1 = bm ∨
        ∃ p ∈ pairs, p.1.move = (voteLoopFull ws md pairs map bm bv).2.1) ∧
      (bm ≠ Move.null → (voteLoopFull ws md pairs map bm bv).2.1 ≠ Move.null) ∧
      ((∃ p ∈ pairs, 0 < getVotingWeight p.2.depth p.1 ws md) →
        (voteLoopFull ws md pairs map bm bv).2.1 ≠ Move.null) := by
  intro pairs
  induction pairs with
  | nil =>
    intro map bm bv hW hN h3 h4 h5 h6
    refine ⟨?_, ?_, ?_, Or.inl rfl, ?_, ?_⟩
    · intro mv; simp [voteLoopFull, weightSum]
    · intro mv; simpa [voteLoopFull] using h3 mv
    · intro h; simpa [voteLoopFull] using h6 h
    · intro h; simpa [voteLoopFull] using h
    · rintro ⟨p, hp, _⟩; simp at hp
  | cons q rest ih =>
    rcases q with ⟨mr, s⟩
    intro map bm bv hW hN h3 h4 h5 h6
    have hw0 : 0 ≤ getVotingWeight s.depth mr ws md := hW (mr, s) (List.mem_cons_self _ _)
    have hmrn : mr.move ≠ Move.null := hN (mr, s) (List.mem_cons_self _ _)
    have hW' : ∀ p ∈ rest, 0 ≤ getVotingWeight p.2.depth p.1 ws md :=
      fun p hp => hW p (List.mem_cons_of_mem _ hp)
    have hN' : ∀ p ∈ rest, p.1.move ≠ Move.null :=
      fun p hp => hN p (List.mem_cons_of_mem _ hp)
    have h4' : ∀ mv, 0 ≤ lookupVote
        ((mr.move, lookupVote map mr.move + getVotingWeight s.depth mr ws md) :: map) mv := by
      intro mv
      rw [lookupVote_cons]
      split
      · exact add_nonneg (h4 _) hw0
      · exact h4 mv
    by_cases hlt : bv < lookupVote map mr.move + getVotingWeight s.depth mr ws md
    · have hrec : voteLoopFull ws md ((mr, s) :: rest) map bm bv =
          voteLoopFull ws md rest
            ((mr.move, lookupVote map mr.move + getVotingWeight s.depth mr ws md) :: map)
            mr.move (lookupVote map mr.move + getVotingWeight s.depth mr ws md) := by
        simp only [voteLoopFull, if_pos hlt]
      have h3' : ∀ mv, lookupVote
          ((mr.move, lookupVote map mr.move + getVotingWeight s.depth mr ws md) :: map) mv ≤
            lookupVote map mr.move + getVotingWeight s.depth mr ws md := by
        intro mv
        rw [lookupVote_cons]
        split
        · exact le_refl _
        · exact le_trans (h3 mv) hlt.le
      have h5' : mr.move = Move.null →
          lookupVote map mr.move + getVotingWeight s.depth mr ws md = 0 :=
        fun h => absurd h hmrn
      have h6' : mr.move ≠ Move.null → lookupVote
          ((mr.move, lookupVote map mr.move + getVotingWeight s.depth mr ws md) :: map) mr.move =
            lookupVote map mr.move + getVotingWeight s.depth mr ws md := by
        intro _
        rw [lookupVote_cons, if_pos rfl]
      obtain ⟨ih1, ih2, ih3, ih4, ih5, ih6⟩ := ih
        ((mr.move, lookupVote map mr.move + getVotingWeight s.depth mr ws md) :: map)
        mr.move (lookupVote map mr.move + getVotingWeight s.depth mr ws md)
        hW' hN' h3' h4' h5' h6'
      rw [hrec]
      refine ⟨?_, ih2, ih3, ?_, ?_, ?_⟩
      · intro mv
        rw [ih1 mv, lookupVote_cons]
        by_cases hmv : mr.move = mv
        · simp only [weightSum, hmv, eq_self_iff_true, if_true]
          ring
        · simp only [weightSum, if_neg hmv]
          ring
      · rcases ih4 with h | ⟨p, hp, hpe⟩
        · exact Or.inr ⟨(mr, s), List.mem_cons_self _ _, h.symm⟩
        · exact Or.inr ⟨p, List.mem_cons_of_mem _ hp, hpe⟩
      · intro _
        exact ih5 hmrn
      · intro _
        exact ih5 hmrn
    · have hrec : voteLoopFull ws md ((mr, s) :: rest) map bm bv =
          voteLoopFull ws md rest
            ((mr.move, lookupVote map mr.move + getVotingWeight s.depth mr ws md) :: map)
            bm bv := by
        simp only [voteLoopFull, if_neg hlt]
      have hle : lookupVote map mr.move + getVotingWeight s.depth mr ws md ≤ bv :=
        not_lt.mp hlt
      have h3' : ∀ mv, lookupVote
          ((mr.move, lookupVote map mr.move + getVotingWeight s.depth mr ws md) :: map) mv ≤ bv := by
        intro mv
        rw [lookupVote_cons]
        split
        · exact hle
        · exact h3 mv
      have h6' : bm ≠ Move.null → lookupVote
          ((mr.move, lookupVote map mr.move + getVotingWeight s.depth mr ws md) :: map) bm = bv := by
        intro hbm
        rw [lookupVote_cons]
        split
        · rename_i hmb
          have he := h6 hbm
          rw [hmb, he] at hle ⊢
          have : getVotingWeight s.depth mr ws md = 0 := by linarith
          rw [this]
          ring
        · exact h6 hbm
      obtain ⟨ih1, ih2, ih3, ih4, ih5, ih6⟩ := ih
        ((mr.move, lookupVote map mr.move + getVotingWeight s.depth mr ws md) :: map)
        bm bv hW' hN' h3' h4' h5 h6'
      rw [hrec]
      refine ⟨?_, ih2, ih3, ?_, ih5, ?_⟩
      · intro mv
        rw [ih1 mv, lookupVote_cons]
        by_cases hmv : mr.move = mv
        · simp only [weightSum, hmv, eq_self_iff_true, if_true]
          ring
        · simp only [weightSum, if_neg hmv]
          ring
      · rcases ih4 with h | ⟨p, hp, hpe⟩
        · exact Or.inl h
        · exact Or.inr ⟨p, List.mem_cons_of_mem _ hp, hpe⟩
      · rintro ⟨p, hp, hpos⟩
        rcases List.mem_cons.mp hp with hph | hpt
        · by_cases hbm : bm = Move.null
          · exfalso
            have hbv : bv = 0 := h5 hbm
            have hwp : 0 < getVotingWeight s.depth mr ws md := by
              rw [hph] at hpos
              exact hpos
            have : bv < lookupVote map mr.move + getVotingWeight s.depth mr ws md := by
              have := h4 mr.move
              rw [hbv]
              linarith
            exact hlt this
          · exact ih5 hbm
        · exact ih6 ⟨p, hpt, hpos⟩

theorem mem_zip_left :
    ∀ (l1 : List MoveRating) (l2 : List Searcher) (mr : MoveRating),
      mr ∈ l1 → l1.length = l2.length → ∃ s : Searcher, (mr, s) ∈ l1.zip l2 := by
  intro l1
  induction l1 with
  | nil => intro l2 mr h _; simp at h
  | cons x xs ih =>
    intro l2 mr h hlen
    cases l2 with
    | nil => simp at hlen
    | cons y ys =>
      rcases List.mem_cons.mp h with hh | hh
      · subst hh
        exact ⟨y, List.mem_cons_self _ _⟩
      · obtain ⟨s, hs⟩ := ih ys mr hh (by simpa using hlen)
        exact ⟨s, List.mem_cons_of_mem _ hs⟩

/- ----------------------------------------------------------------
Claim C3 — the weighted vote and its tie-break
---------------------------------------------------------------- -/

/-- C3 (amended): in the coordinator's weighted vote (the path with no null
move and no reported checkmate level, one result per worker), voting weights
are summed per distinct move across workers and a move with the greatest
accumulated weight is returned, the returned move being one actually voted
by some worker.  The universally claimed first-seen tie-break does not hold:
the loop keeps its running leader under a strictly-greater comparison of
running totals, so a move whose total accumulates across several workers can
lose a tie to a later-seen move that reaches the same total at once — the
counterexample exhibits exactly that. -/
theorem voteForBestMove_greatest (searchers : List Searcher) (moves : List MoveRating)
    (hne : moves ≠ [])
    (hlen : moves.length = searchers.length)
    (hnull : ∀ mr ∈ moves, mr.move ≠ Move.null)
    (hcm : anyCheckmate moves = false) :
    (∃ p ∈ moves.zip searchers, p.1.move = voteForBestMove searchers moves) ∧
    (∀ p ∈ moves.zip searchers,
      accumulatedWeight searchers moves p.1.move ≤
        accumulatedWeight searchers moves (voteForBestMove searchers moves)) := by
  have hvote : voteForBestMove searchers moves =
      (voteLoopFull (minRating moves) (maxRating moves - minRating moves)
        (moves.zip searchers) [] Move.null 0).2.1 := by
    simp [voteForBestMove, hcm]
  obtain ⟨mr0, hmr0⟩ : ∃ mr0, mr0 ∈ moves := by
    cases moves with
    | nil => exact absurd rfl hne
    | cons x xs => exact ⟨x, List.mem_cons_self _ _⟩
  have hmd0 : 0 ≤ maxRating moves - minRating moves :=
    sub_nonneg.mpr (le_trans (minRating_le_of_mem hmr0) (le_maxRating_of_mem hmr0))
  have hmemz : ∀ p ∈ moves.zip searchers, p.1 ∈ moves := by
    intro p hp
    rcases p with ⟨a, b⟩
    exact (List.of_mem_zip hp).1
  have hW : ∀ p ∈ moves.zip searchers,
      0 ≤ getVotingWeight p.2.depth p.1 (minRating moves) (maxRating moves - minRating moves) :=
    fun p hp => getVotingWeight_nonneg _ _ _ _ (minRating_le_of_mem (hmemz p hp)) hmd0
  have hN : ∀ p ∈ moves.zip searchers, p.1.move ≠ Move.null :=
    fun p hp => hnull p.1 (hmemz p hp)
  obtain ⟨ih1, ih2, ih3, ih4, ih5, ih6⟩ :=
    voteLoopFull_invariant (minRating moves) (maxRating moves - minRating moves)
      (moves.zip searchers) [] Move.null 0 hW hN
      (fun mv => le_of_eq (lookupVote_nil mv))
      (fun mv => le_of_eq (lookupVote_nil mv).symm)
      (fun _ => rfl)
      (fun h => absurd rfl h)
  have hpos : ∃ p ∈ moves.zip searchers,
      0 < getVotingWeight p.2.depth p.1 (minRating moves) (maxRating moves - minRating moves) := by
    by_cases hmd : maxRating moves - minRating moves = 0
    · obtain ⟨s0, hp0⟩ := mem_zip_left moves searchers mr0 hmr0 hlen
      refine ⟨(mr0, s0), hp0, ?_⟩
      have hnone := checkmateLevel_none_of_no_checkmate hcm mr0 hmr0
      rw [getVotingWeight_no_level _ _ _ _ hnone, if_neg (not_not_intro hmd)]
      positivity
    · obtain ⟨mrS, hmemS, hstar⟩ := maxRating_attained hne
      obtain ⟨s, hps⟩ := mem_zip_left moves searchers mrS hmemS hlen
      have hnone := checkmateLevel_none_of_no_checkmate hcm mrS hmemS
      refine ⟨(mrS, s), hps, ?_⟩
      rw [getVotingWeight_no_level _ _ _ _ hnone, if_pos hmd]
      have hsub : mrS.rating - minRating moves = maxRating moves - minRating moves := by
        rw [← hstar]
      rw [hsub]
      have hdiv : (12 / 10 : Rating) * (maxRating moves - minRating moves) /
          (maxRating moves - minRating moves) = 12 / 10 := by
        field_simp
        ring
      rw [hdiv]
      positivity
  have hbm := ih6 hpos
  rw [hvote]
  constructor
  · rcases ih4 with h | h
    · exact absurd h hbm
    · exact h
  · intro p hp
    have htot : ∀ mv, lookupVote (voteLoopFull (minRating moves)
        (maxRating moves - minRating moves) (moves.zip searchers) [] Move.null 0).1 mv =
          weightSum (minRating moves) (maxRating moves - minRating moves) mv
            (moves.zip searchers) := by
      intro mv
      rw [ih1 mv, lookupVote_nil, zero_add]
    have hle := ih2 p.1.move
    have heq := ih3 hbm
    show weightSum (minRating moves) (maxRating moves - minRating moves) p.1.move
        (moves.zip searchers) ≤ weightSum (minRating moves)
          (maxRating moves - minRating moves)
          ((voteLoopFull (minRating moves) (maxRating moves - minRating moves)
            (moves.zip searchers) [] Move.null 0).2.1) (moves.zip searchers)
    rw [← htot p.1.move, ← htot _, heq]
    exact hle

/-- C3 counterexample: in `cexMoves`/`cexSearchers` (four workers at depth
1, every weight `3`) the distinct moves `⟨1,false⟩` and `⟨2,false⟩` both end
with the greatest accumulated weight `6`, and `⟨1,false⟩` is seen first in
worker-enumeration order, yet `voteForBestMove` returns the later-seen
`⟨2,false⟩` (its running total reaches `6` one step earlier) — the claimed
first-seen tie-break is false on the code. -/
theorem vote_tiebreak_counterexample :
    voteForBestMove cexSearchers cexMoves = ⟨2, false⟩ ∧
    (⟨1, false⟩ : Move) ≠ ⟨2, false⟩ ∧
    accumulatedWeight cexSearchers cexMoves ⟨1, false⟩ =
      accumulatedWeight cexSearchers cexMoves ⟨2, false⟩ ∧
    (∀ p ∈ cexMoves.zip cexSearchers,
      accumulatedWeight cexSearchers cexMoves p.1.move ≤
        accumulatedWeight cexSearchers cexMoves ⟨1, false⟩) ∧
    firstSeenIndex cexMoves ⟨1, false⟩ < firstSeenIndex cexMoves ⟨2, false⟩ := by
  refine ⟨?_, by decide, ?_, ?_, by decide⟩
  · norm_num [voteForBestMove, anyCheckmate, cexMoves, cexSearchers, voteLoopFull,
      lookupVote, List.find?, getVotingWeight, minRating, maxRating, Move.null]
  · norm_num [accumulatedWeight, weightSum, cexMoves, cexSearchers, getVotingWeight,
      minRating, maxRating, List.zip, List.zipWith, Move.null]
  · intro p hp
    simp only [cexMoves, cexSearchers, List.zip, List.zipWith, List.mem_cons,
      List.not_mem_nil, or_false] at hp
    rcases hp with h | h | h | h <;> subst h <;>
      norm_num [accumulatedWeight, weightSum, cexMoves, cexSearchers, getVotingWeight,
        minRating, maxRating, List.zip, List.zipWith, Move.null]

/-- Witness for C3 (amended) on a single-worker vote. -/
theorem voteForBestMove_greatest_witness :
    (([⟨⟨1, false⟩, 1, false, none⟩] : List MoveRating) ≠ [] ∧
      ([⟨⟨1, false⟩, 1, false, none⟩] : List MoveRating).length =
        ([⟨false, 1⟩] : List Searcher).length ∧
      (∀ mr ∈ ([⟨⟨1, false⟩, 1, false, none⟩] : List MoveRating), mr.move ≠ Move.null) ∧
      anyCheckmate [⟨⟨1, false⟩, 1, false, none⟩] = false) ∧
    ((∃ p ∈ ([⟨⟨1, false⟩, 1, false, none⟩] : List MoveRating).zip [(⟨false, 1⟩ : Searcher)],
        p.1.move = voteForBestMove [⟨false, 1⟩] [⟨⟨1, false⟩, 1, false, none⟩]) ∧
      (∀ p ∈ ([⟨⟨1, false⟩, 1, false, none⟩] : List MoveRating).zip [(⟨false, 1⟩ : Searcher)],
        accumulatedWeight [⟨false, 1⟩] [⟨⟨1, false⟩, 1, false, none⟩] p.1.move ≤
          accumulatedWeight [⟨false, 1⟩] [⟨⟨1, false⟩, 1, false, none⟩]
            (voteForBestMove [⟨false, 1⟩] [⟨⟨1, false⟩, 1, false, none⟩]))) :=
  ⟨⟨by decide, by decide, by decide, by decide⟩,
    voteForBestMove_greatest [⟨false, 1⟩] [⟨⟨1, false⟩, 1, false, none⟩]
      (by decide) (by decide) (by decide) (by decide)⟩

/- ----------------------------------------------------------------
Claim C1 — killer-table indexing at ponder depth 255
---------------------------------------------------------------- -/

theorem killerLevels_addKiller (st : SearchState) (l : Nat) (m : Move) :
    (addKiller st l m).killerLevels = st.killerLevels := rfl

theorem killerLevels_store (st : SearchState) (p : Pos) (e : PositionEntry) :
    (storePositionEntry st p e).killerLevels = st.killerLevels := rfl

theorem getPositionEntry_ghost (st : SearchState) (ls : List Nat) (q : Pos) :
    getPositionEntry { st with killerLevels := ls } q = getPositionEntry st q := rfl

/-- On a singleton, untrimmed priority list the child loop's final state is
the recursive call's state, whichever way the loop exits (pruning only adds
a killer move, which leaves the ghost level trace unchanged). -/
theorem childLoop_singleton_killerLevels
    (recurse : Bool → Node → AlphaBeta → SearchState → MoveRating × SearchState)
    (env : Env) (maximizing : Bool) (node : Node) (mp : MovePriority)
    (best : MoveRating) (ab : AlphaBeta) (st : SearchState)
    (ht : mp.trimmed = false) :
    ((childLoop recurse env maximizing node [mp] best ab st).st).killerLevels =
      ((recurse (!maximizing) (mkChild env node mp) ab st).2).killerLevels := by
  simp only [childLoop, ht, Bool.false_eq_true, if_false]
  repeat' split
  all_goals rfl

/-- The TT store at the end of `bestChildPosition` never touches the ghost
level trace. -/
theorem bestChildPositionF_killerLevels
    (recurse : Bool → Node → AlphaBeta → SearchState → MoveRating × SearchState)
    (env : Env) (helper maximizing : Bool) (node : Node) (pv : Move)
    (ab : AlphaBeta) (st : SearchState) :
    ((bestChildPositionF recurse env helper maximizing node pv ab st).2).killerLevels =
      ((bestChildLoopOut recurse env helper maximizing node pv ab st).st).killerLevels := by
  simp only [bestChildPositionF]
  split <;> rfl

/-- In the chain environment `envA`, a depth-`r` search from a root whose
repetition view satisfies the chain invariant and whose table is empty above
the root records every level `l, l+1, …, l+r-1` as a killer-table index (and
keeps every previously recorded level). -/
theorem chain_killer_levels :
    ∀ (r : Nat) (maximizing : Bool) (p l : Nat) (ab : AlphaBeta) (st : SearchState) (rep : RepMap),
      rep p ≤ 1 →
      (∀ q, p < q → rep q = 0) →
      (∀ q, p ≤ q → getPositionEntry st q = none) →
      (∀ lvl ∈ st.killerLevels,
        lvl ∈ (tryShortCircuitF envA false (r + 1) maximizing ⟨p, l, r, rep⟩ ab st).2.killerLevels) ∧
      (∀ lvl, l ≤ lvl → lvl < l + r →
        lvl ∈ (tryShortCircuitF envA false (r + 1) maximizing ⟨p, l, r, rep⟩ ab st).2.killerLevels) := by
  intro r
  induction r with
  | zero =>
    intro maximizing p l ab st rep h1 h2 h3
    have hrep : ¬ (3 ≤ rep p) := by omega
    constructor
    · intro lvl hl
      simpa [tryShortCircuitF, searchStep, envA, hrep, h3 p (Nat.le_refl p)] using hl
    · intro lvl hla hlb
      omega
  | succ r' ih =>
    intro maximizing p l ab st rep h1 h2 h3
    have hrep : ¬ (3 ≤ rep p) := by omega
    -- the single step unfolds into `bestChildPositionF` on the one-move list
    have hstep :
        tryShortCircuitF envA false (r' + 1 + 1) maximizing ⟨p, l, r' + 1, rep⟩ ab st =
          bestChildPositionF (tryShortCircuitF envA false (r' + 1)) envA false maximizing
            ⟨p, l, r' + 1, rep⟩ Move.null ab st := by
      simp [tryShortCircuitF, searchStep, envA, hrep, h3 p (Nat.le_refl p)]
    have hout :
        (bestChildLoopOut (tryShortCircuitF envA false (r' + 1)) envA false maximizing
            ⟨p, l, r' + 1, rep⟩ Move.null ab st).st.killerLevels =
          ((tryShortCircuitF envA false (r' + 1)) (!maximizing)
              (mkChild envA ⟨p, l, r' + 1, rep⟩ { move := ⟨1, false⟩, recommendedDepth := r' })
              ab { st with killerLevels := l :: st.killerLevels }).2.killerLevels := by
      show (childLoop (tryShortCircuitF envA false (r' + 1)) envA maximizing ⟨p, l, r' + 1, rep⟩
          [{ move := ⟨1, false⟩, recommendedDepth := r' }]
          { move := Move.null, rating := worstPossibleRating maximizing } ab
          { st with killerLevels := l :: st.killerLevels }).st.killerLevels = _
      exact childLoop_singleton_killerLevels _ _ _ _ _ _ _ _ rfl
    have hchild :
        mkChild envA ⟨p, l, r' + 1, rep⟩ { move := ⟨1, false⟩, recommendedDepth := r' } =
          ⟨p + 1, l + 1, r', envA.childRep rep (p + 1)⟩ := by
      simp [mkChild, envA]
    have hghost :
        (tryShortCircuitF envA false (r' + 1 + 1) maximizing ⟨p, l, r' + 1, rep⟩ ab st).2.killerLevels =
          ((tryShortCircuitF envA false (r' + 1)) (!maximizing)
              ⟨p + 1, l + 1, r', envA.childRep rep (p + 1)⟩ ab
              { st with killerLevels := l :: st.killerLevels }).2.killerLevels := by
      rw [hstep, bestChildPositionF_killerLevels, hout, hchild]
    have hrep1 : envA.childRep rep (p + 1) (p + 1) ≤ 1 := by
      simp [envA, h2 (p + 1) (Nat.lt_succ_self p)]
    have hrep2 : ∀ q, p + 1 < q → envA.childRep rep (p + 1) q = 0 := by
      intro q hq
      have hne : ¬ (q = p + 1) := by omega
      simp [envA, hne, h2 q (by omega)]
    have htt1 : ∀ q, p + 1 ≤ q →
        getPositionEntry { st with killerLevels := l :: st.killerLevels } q = none :=
      fun q hq => h3 q (by omega)
    have hih := ih (!maximizing) (p + 1) (l + 1) ab
      { st with killerLevels := l :: st.killerLevels } (envA.childRep rep (p + 1))
      hrep1 hrep2 htt1
    constructor
    · intro lvl hl
      rw [hghost]
      exact hih.1 lvl (List.mem_cons_of_mem _ hl)
    · intro lvl hla hlb
      rw [hghost]
      by_cases hle : l + 1 ≤ lvl
      · exact hih.2 lvl hle (by omega)
      · have heq : lvl = l := by omega
        subst heq
        exact hih.1 lvl (List.mem_cons_self _ _)

/-- C1 (evidence of the code bug): the search thread's ponder search hands
`PONDER_DEPTH = 255` to the coordinator, whose depth assignment gives the
main worker that full depth; running the main worker's depth-255 search on an
environment whose positions form a chain of single legal moves makes
`bestChildPosition` index the killer-move table at level `MAX_DEPTH = 30`
(the `killerLevels` ghost records every level used as an index), and that
index is out of bounds for the `std::array` of dimension `MAX_DEPTH = 30` —
refuting the claim that every node's level stays below 30. -/
theorem ponder_killer_level_out_of_bounds :
    assignDepths PONDER_DEPTH [⟨false, 0⟩] = [⟨false, PONDER_DEPTH⟩] ∧
    MAX_DEPTH ∈ (tryShortCircuitF envA false (PONDER_DEPTH + 1) true
        ⟨0, 0, PONDER_DEPTH, fun _ => 0⟩ {} {}).2.killerLevels ∧
    killerIndexInBounds MAX_DEPTH = false := by
  have h1 : assignDepths PONDER_DEPTH [⟨false, 0⟩] = [⟨false, PONDER_DEPTH⟩] := by decide
  have h3 : killerIndexInBounds MAX_DEPTH = false := by decide
  have h := chain_killer_levels PONDER_DEPTH true 0 0 {} {} (fun _ => 0)
    (by decide) (fun q _ => rfl) (fun q _ => rfl)
  refine ⟨h1, ?_, h3⟩
  with_reducible exact h.2 MAX_DEPTH (Nat.zero_le _) (by decide)
